import Mathlib

/-!
Verification of the CNTKTextFormatReader text parser
(Source/Readers/CNTKTextFormatReader/TextParser.cpp) against its
natural-language specification.

The embedding models:
  * bytes as `Int` values (the C `char` values of the input),
  * the refillable byte buffer as the remaining input `List Int` together
    with the caller-owned `bytesToRead` budget (`CanRead()` holds exactly
    when the remaining input is nonempty, since a refill only fails at end
    of file),
  * the floating-point element type as `ℚ` (the precision contract of the
    hand-rolled scanner is out of scope; all claims below are structural),
  * fatal errors (`RuntimeError` after `PrintWarningNotification`) as
    `Except.error` carrying the notifications printed before the message,
  * warnings (`fprintf` guarded by `ShouldWarn()`, i.e. traceLevel at least
    Warning) as a counter in the parser's error state.

Loops that only ever advance `m_pos` by one byte per iteration are
translated by structural recursion on `bytesToRead`.  The sample- and
row-level loops call sub-scanners that consume several bytes at once; they
are translated with an explicit iteration bound (`fuel`) initialised to
`bytesToRead`.  Every iteration of these loops consumes at least one byte
of the budget, so the number of iterations never exceeds the initial
budget and the `fuel = 0` branch coincides with the `bytesToRead = 0`
exit of the source loop.
-/

namespace TextFormat

/- Batteries marks the rational operations irreducible; concrete runs of
the parser are evaluated by `decide`, which needs them to unfold. -/
attribute [local semireducible] Rat.sub Rat.add Rat.mul Rat.inv

deriving instance DecidableEq for Except

/-! ## Significant bytes (TextReaderConstants.h, spec section 6) -/

/-- `\n`, the row delimiter (ROW_DELIMITER). -/
def rowDelimiter : Int := 10

/-- `\r`, benign wherever it appears (CARRIAGE_RETURN). -/
def carriageReturn : Int := 13

/-- `\t`, the column delimiter (COLUMN_DELIMITER). -/
def columnDelimiter : Int := 9

/-- space, the value delimiter (VALUE_DELIMITER). -/
def valueDelimiter : Int := 32

/-- the pipe byte introducing a sample (the constant called the name
prefix in the source, NAME_PREFIX). -/
def nameMarker : Int := 124

/-- `:`, the index delimiter in sparse samples (INDEX_DELIMITER). -/
def indexDelimiter : Int := 58

/-- `#`, the escape symbol when immediately following a pipe (ESCAPE_SYMBOL). -/
def escapeSymbol : Int := 35

/-- `isdigit` on ASCII bytes. -/
def isdigitC (c : Int) : Bool := decide (48 ≤ c ∧ c ≤ 57)

/-- `isSign` macro from TextParser.cpp: `-` or `+`. -/
def isSignC (c : Int) : Bool := decide (c = 45 ∨ c = 43)

/-- `isE` macro from TextParser.cpp: `e` or `E`. -/
def isEC (c : Int) : Bool := decide (c = 101 ∨ c = 69)

/-- `isDelimiter` from TextParser.cpp lines 18-22: the six recognised
terminators of a uint64 value. -/
def isDelimiter (c : Int) : Bool :=
  decide (c = valueDelimiter ∨ c = nameMarker ∨ c = columnDelimiter ∨
    c = indexDelimiter ∨ c = rowDelimiter ∨ c = carriageReturn)

/-! ## Error budget and diagnostics (section 4.H of the spec) -/

/-- TraceLevel::Warning. -/
def warningLevel : Nat := 1

/-- TraceLevel::Info. -/
def infoLevel : Nat := 2

/-- The parser-instance diagnostic state: the error budget
(`m_numAllowedErrors`), the pending-warnings flag (`m_hadWarnings`), the
configured trace level (`m_traceLevel`), a count of the warnings actually
printed to stderr (each `fprintf` guarded by `ShouldWarn()`), and the
input file name used in messages. -/
structure ErrState where
  numAllowedErrors : Nat
  hadWarnings : Bool
  traceLevel : Nat
  warningsPrinted : Nat
  filename : String
deriving DecidableEq

/-- `ShouldWarn()`: warnings are printed iff the trace level is at least
Warning. -/
def shouldWarn (e : ErrState) : Bool := decide (warningLevel ≤ e.traceLevel)

/-- One `fprintf(stderr, "WARNING: ...")` site guarded by `ShouldWarn()`. -/
def warn (e : ErrState) : ErrState :=
  if shouldWarn e then { e with warningsPrinted := e.warningsPrinted + 1 } else e

/-- The summary text printed by `PrintWarningNotification` (quoting
apostrophes elided). -/
def warningNotificationText : String :=
  "A number of warnings were generated while reading input data, to see them please set traceLevel to a value greater or equal to 1."

/-- `PrintWarningNotification` (TextParser.cpp lines 135-144): the list of
notifications printed, nonempty iff warnings are pending and the trace
level is below Warning. -/
def printWarningNotification (e : ErrState) : List String :=
  if e.hadWarnings ∧ e.traceLevel < warningLevel then [warningNotificationText] else []

/-- A fatal error (`RuntimeError`): the notifications printed immediately
before the message, and the message itself. -/
structure Fatal where
  notifications : List String
  message : String
deriving DecidableEq

/-- The exact budget-exhaustion message of TextParser.cpp lines 343-345. -/
def maxErrorsMessage (filename : String) : String :=
  "Reached the maximum number of allowed errors while reading the input file (" ++ filename ++ ")."

/-- The message of the sequence-id mismatch fatal error (TextParser.cpp
line 411); the offset detail of `GetFileInfo()` is abbreviated. -/
def seqIdMismatchMessage (id : Nat) : String :=
  "Did not find the expected sequence (id = " ++ toString id ++ ")."

/-- The fatal message for a fully decoded sequence with an empty input
stream (TextParser.cpp line 496). -/
def malformedInputMessage : String := "Malformed input file. Bailing out."

/-- `TextParser::IncrementNumberOfErrorsOrDie` (lines 337-348): with an
exhausted budget it prints any pending warning notification and dies with
the budget message; otherwise it decrements the budget. -/
def incrementNumberOfErrorsOrDie (e : ErrState) : Except Fatal ErrState :=
  if e.numAllowedErrors = 0 then
    .error ⟨printWarningNotification e, maxErrorsMessage e.filename⟩
  else
    .ok { e with numAllowedErrors := e.numAllowedErrors - 1 }

/-- `n` successive calls to `IncrementNumberOfErrorsOrDie`, stopping at
the first fatal one. -/
def iterateErrors : Nat → ErrState → Except Fatal ErrState
  | 0, e => .ok e
  | k + 1, e =>
    match incrementNumberOfErrorsOrDie e with
    | .ok e' => iterateErrors k e'
    | .error f => .error f

/-! ## Numeric scanners (section 4.B of the spec) -/

/-- The result of one of the in-place scanners: either a value together
with the remaining input (`m_pos`) and remaining byte budget, or a soft
failure leaving `m_pos` and the budget where the scanner stopped. -/
inductive ScanResult (α : Type) where
  | ok (val : α) (input : List Int) (bytesToRead : Nat)
  | fail (input : List Int) (bytesToRead : Nat)
deriving DecidableEq

/-- `2^64`; `size_t` arithmetic in the source is modulo this. -/
def u64 : Nat := 2 ^ 64

/-- The loop of `TextParser::TryReadUint64` (lines 941-994).  `value`
accumulates modulo `2^64` exactly as the `size_t` accumulator does; the
overflow check is the source's `temp > value` comparison of the old and
new accumulator. -/
def tryReadUint64Loop (value : Nat) (found : Bool) :
    List Int → Nat → ErrState → ScanResult Nat × ErrState
  | input, 0, e => (.fail input 0, warn e)
  | [], n, e => (.fail [] n, warn e)
  | c :: rest, n + 1, e =>
    if isdigitC c then
      let value' := (value * 10 + (c - 48).toNat) % u64
      if value' < value then (.fail (c :: rest) (n + 1), warn e)
      else tryReadUint64Loop value' true rest n e
    else
      if isDelimiter c then
        if found then (.ok value (c :: rest) (n + 1), e)
        else (.fail (c :: rest) (n + 1), e)
      else (.fail (c :: rest) (n + 1), warn e)

/-- `TextParser::TryReadUint64`. -/
def tryReadUint64 (input : List Int) (bytesToRead : Nat) (e : ErrState) :
    ScanResult Nat × ErrState :=
  tryReadUint64Loop 0 false input bytesToRead e

/-- The accumulator run of `TryReadUint64` over a digit string, in
`size_t` arithmetic, returning `none` when the source's overflow test
(`new < old`) fires. -/
def u64acc : Nat → List Int → Option Nat
  | v, [] => some v
  | v, c :: ds =>
    let v' := (v * 10 + (c - 48).toNat) % u64
    if v' < v then none else u64acc v' ds

/-- The mathematical value of a decimal digit string. -/
def decimalValue (ds : List Int) : Nat :=
  ds.foldl (fun a c => a * 10 + (c - 48).toNat) 0

/-! ## The hand-rolled real-number state machine (TextParser.cpp 1005-1195) -/

/-- The `State` enumeration of TextParser.cpp lines 24-34. -/
inductive RState where
  | initState
  | sign
  | integralPart
  | period
  | fractionalPart
  | theLetterE
  | exponentSign
  | exponent
deriving DecidableEq

/-- The `pow(10.0, exponent)` call at the end of the Exponent state,
modelled exactly at integral exponents: the `double` variable `number`
only ever holds a nonnegative integer there, so `q.num` recovers it (and
its negation). -/
def qpow10 (exponent : ℚ) : ℚ := (10 : ℚ) ^ exponent.num

/-- The loop of `TextParser::TryReadRealNumber` (lines 1005-1195).  The
mutable `double` locals `coefficient`, `number`, `divider` and the flag
`negative` are threaded; emission at a terminator returns the input and
budget unchanged (the terminator is not consumed). -/
def tryReadRealNumberLoop (state : RState)
    (coefficient number divider : ℚ) (negative : Bool) :
    List Int → Nat → ErrState → ScanResult ℚ × ErrState
  | input, 0, e => (.fail input 0, warn e)
  | [], n, e => (.fail [] n, warn e)
  | c :: rest, n + 1, e =>
    match state with
    | .initState =>
      if isdigitC c then
        tryReadRealNumberLoop .integralPart coefficient ((c : ℚ) - 48) divider negative rest n e
      else if isSignC c then
        tryReadRealNumberLoop .sign coefficient number divider (c == 45) rest n e
      else (.fail (c :: rest) (n + 1), warn e)
    | .sign =>
      if isdigitC c then
        tryReadRealNumberLoop .integralPart coefficient ((c : ℚ) - 48) divider negative rest n e
      else (.fail (c :: rest) (n + 1), warn e)
    | .integralPart =>
      if isdigitC c then
        tryReadRealNumberLoop .integralPart coefficient (number * 10 + ((c : ℚ) - 48)) divider negative rest n e
      else if c = 46 then
        tryReadRealNumberLoop .period coefficient number divider negative rest n e
      else if isEC c then
        tryReadRealNumberLoop .theLetterE (if negative then -number else number) 0 divider negative rest n e
      else (.ok (if negative then -number else number) (c :: rest) (n + 1), e)
    | .period =>
      if isdigitC c then
        tryReadRealNumberLoop .fractionalPart number ((c : ℚ) - 48) 10 negative rest n e
      else (.ok (if negative then -number else number) (c :: rest) (n + 1), e)
    | .fractionalPart =>
      if isdigitC c then
        tryReadRealNumberLoop .fractionalPart coefficient (number * 10 + ((c : ℚ) - 48)) (divider * 10) negative rest n e
      else if isEC c then
        tryReadRealNumberLoop .theLetterE
          (if negative then -(coefficient + number / divider) else coefficient + number / divider)
          number divider negative rest n e
      else
        (.ok (if negative then -(coefficient + number / divider) else coefficient + number / divider)
          (c :: rest) (n + 1), e)
    | .theLetterE =>
      if isdigitC c then
        tryReadRealNumberLoop .exponent coefficient ((c : ℚ) - 48) divider false rest n e
      else if isSignC c then
        tryReadRealNumberLoop .exponentSign coefficient number divider (c == 45) rest n e
      else (.fail (c :: rest) (n + 1), warn e)
    | .exponentSign =>
      if isdigitC c then
        tryReadRealNumberLoop .exponent coefficient ((c : ℚ) - 48) divider negative rest n e
      else (.fail (c :: rest) (n + 1), warn e)
    | .exponent =>
      if isdigitC c then
        tryReadRealNumberLoop .exponent coefficient (number * 10 + ((c : ℚ) - 48)) divider negative rest n e
      else
        (.ok (coefficient * qpow10 (if negative then -number else number)) (c :: rest) (n + 1), e)

/-- `TextParser::TryReadRealNumber`. -/
def tryReadRealNumber (input : List Int) (bytesToRead : Nat) (e : ErrState) :
    ScanResult ℚ × ErrState :=
  tryReadRealNumberLoop .initState 0 0 0 false input bytesToRead e

/-- The states in which the machine has consumed a well-formed number
(at least one digit in the integral, fractional or exponent part) and can
emit a value at a terminator. -/
def emits (state : RState) : Bool :=
  match state with
  | .integralPart | .period | .fractionalPart | .exponent => true
  | _ => false

/-- Whether byte `c` advances the machine from an emitting state instead
of terminating the number. -/
def canAdvance (state : RState) (c : Int) : Bool :=
  match state with
  | .integralPart => isdigitC c || decide (c = 46) || isEC c
  | .period => isdigitC c
  | .fractionalPart => isdigitC c || isEC c
  | .exponent => isdigitC c
  | _ => false

/-- The value emitted from an emitting state, exactly as each terminator
branch of the source computes it. -/
def emittedValue (state : RState) (coefficient number divider : ℚ) (negative : Bool) : ℚ :=
  match state with
  | .period => if negative then -number else number
  | .fractionalPart =>
    if negative then -(coefficient + number / divider) else coefficient + number / divider
  | .exponent => coefficient * qpow10 (if negative then -number else number)
  | _ => if negative then -number else number

/-! ## Data model (section 3 of the spec) -/

/-- `StorageType`. -/
inductive StorageType where
  | dense
  | sparse
deriving DecidableEq

/-- `TextParser::StreamInfo` (lines 60-65). -/
structure StreamInfo where
  type : StorageType
  sampleDimension : Nat
deriving DecidableEq

/-- The alias table and stream table fixed at construction: stream infos
indexed by stream id, the alias-to-id mapping, and the precomputed
maximum alias length. -/
structure ParserConfig where
  streamInfos : List StreamInfo
  aliasToIdMap : List (List Int × Nat)
  maxAliasLength : Nat
deriving DecidableEq

/-- `DenseInputStreamBuffer`: a growable buffer of element values and the
count of full samples appended. -/
structure DenseInputStreamBuffer where
  buffer : List ℚ
  numberOfSamples : Nat
deriving DecidableEq

/-- `SparseInputStreamBuffer`: parallel `values`/`indices` growables,
per-sample nonzero counts, the running total and the sample count.
Indices are stored as the `size_t` values read (the
`static_cast<IndexType>` in the source is value-preserving for every
index that passes the bound check in any real configuration). -/
structure SparseInputStreamBuffer where
  buffer : List ℚ
  indices : List Nat
  nnzCounts : List Nat
  totalNnzCount : Nat
  numberOfSamples : Nat
deriving DecidableEq

/-- A per-stream buffer, dense or sparse. -/
inductive InputStreamBuffer where
  | dense (d : DenseInputStreamBuffer)
  | sparse (s : SparseInputStreamBuffer)
deriving DecidableEq

/-- `m_numberOfSamples` of a per-stream buffer. -/
def numberOfSamplesOf : InputStreamBuffer → Nat
  | .dense d => d.numberOfSamples
  | .sparse s => s.numberOfSamples

/-- `SequenceBuffer`: one per-stream buffer per declared stream, ordered
by stream index. -/
abbrev SequenceBuffer := List InputStreamBuffer

/-- The default used for out-of-range stream access in the model (the
source indexes unchecked; every id produced by the alias table is in
range). -/
def defaultBuffer : InputStreamBuffer := .dense ⟨[], 0⟩

/-- Default stream info for out-of-range access in the model. -/
def defaultStreamInfo : StreamInfo := ⟨.dense, 0⟩

/-! ## Row/sample grammar (section 4.C of the spec) -/

/-- The loop of `TextParser::TryGetInputId` (lines 678-748): accumulate an
alias of at most `maxAliasLength` bytes into the scratch buffer, stop at
any byte at most the value delimiter or at a pipe, and look the alias up. -/
def tryGetInputIdLoop (cfg : ParserConfig) (scratch : List Int) :
    List Int → Nat → ErrState → ScanResult Nat × ErrState
  | input, 0, e => (.fail input 0, warn e)
  | [], n, e => (.fail [] n, warn e)
  | c :: rest, n + 1, e =>
    if c ≤ valueDelimiter ∨ c = nameMarker then
      if scratch.length ≠ 0 then
        match cfg.aliasToIdMap.lookup scratch with
        | some id => (.ok id (c :: rest) (n + 1), e)
        | none => (.fail (c :: rest) (n + 1), warn e)
      else (.fail (c :: rest) (n + 1), warn e)
    else if scratch.length < cfg.maxAliasLength then
      tryGetInputIdLoop cfg (scratch ++ [c]) rest n e
    else (.fail (c :: rest) (n + 1), warn e)

/-- `TextParser::TryGetInputId`. -/
def tryGetInputId (cfg : ParserConfig) (input : List Int) (bytesToRead : Nat)
    (e : ErrState) : ScanResult Nat × ErrState :=
  tryGetInputIdLoop cfg [] input bytesToRead e

/-- The exhaustion exit of `TryReadDenseSample` (lines 813-820):
increment-or-die first, then warn, then report failure. -/
def denseExhausted (input : List Int) (b : Nat) (e : ErrState) :
    Except Fatal (ScanResult (List ℚ) × ErrState) :=
  match incrementNumberOfErrorsOrDie e with
  | .error f => .error f
  | .ok e' => .ok (.fail input b, warn e')

/-- The loop of `TextParser::TryReadDenseSample` (lines 750-821).  `fuel`
bounds the iteration count; it is initialised to `bytesToRead` and every
iteration consumes at least one byte (a successful `TryReadRealNumber`
consumes at least one digit), so the `fuel = 0` branch coincides with the
`bytesToRead = 0` exit. -/
def tryReadDenseSampleLoop (values : List ℚ) (counter sampleSize : Nat) :
    Nat → List Int → Nat → ErrState → Except Fatal (ScanResult (List ℚ) × ErrState)
  | 0, input, b, e => denseExhausted input b e
  | _ + 1, input, 0, e => denseExhausted input 0 e
  | _ + 1, [], b, e => denseExhausted [] b e
  | fuel + 1, c :: rest, b + 1, e =>
    if c < valueDelimiter ∨ c = nameMarker then
      if sampleSize < counter then
        .ok (.fail (c :: rest) (b + 1), warn e)
      else if counter < sampleSize then
        .ok (.ok (values ++ List.replicate (sampleSize - counter) 0) (c :: rest) (b + 1), warn e)
      else
        .ok (.ok values (c :: rest) (b + 1), e)
    else if c = valueDelimiter then
      tryReadDenseSampleLoop values counter sampleSize fuel rest b e
    else
      match tryReadRealNumber (c :: rest) (b + 1) e with
      | (.ok value input' b', e') =>
        tryReadDenseSampleLoop (values ++ [value]) (counter + 1) sampleSize fuel input' b' e'
      | (.fail input' b', e') => .ok (.fail input' b', e')

/-- `TextParser::TryReadDenseSample`. -/
def tryReadDenseSample (values : List ℚ) (sampleSize : Nat) (input : List Int)
    (bytesToRead : Nat) (e : ErrState) :
    Except Fatal (ScanResult (List ℚ) × ErrState) :=
  tryReadDenseSampleLoop values 0 sampleSize bytesToRead input bytesToRead e

/-- The loop of `TextParser::TryReadSparseSample` (lines 823-907), with
the same fuel convention as the dense loop.  After a successful
`TryReadUint64` the source reads `*m_pos` directly; the scanner only
succeeds standing on a delimiter byte, so the empty-input fallback branch
below is unreachable. -/
def tryReadSparseSampleLoop (values : List ℚ) (indices : List Nat) (sampleSize : Nat) :
    Nat → List Int → Nat → ErrState → ScanResult (List ℚ × List Nat) × ErrState
  | 0, input, b, e => (.fail input b, warn e)
  | _ + 1, input, 0, e => (.fail input 0, warn e)
  | _ + 1, [], b, e => (.fail [] b, warn e)
  | fuel + 1, c :: rest, b + 1, e =>
    if c < valueDelimiter ∨ c = nameMarker then
      (.ok (values, indices) (c :: rest) (b + 1), e)
    else if c = valueDelimiter then
      tryReadSparseSampleLoop values indices sampleSize fuel rest b e
    else
      match tryReadUint64 (c :: rest) (b + 1) e with
      | (.fail input' b', e') => (.fail input' b', e')
      | (.ok index input' b', e') =>
        if sampleSize < index then (.fail input' b', warn e')
        else
          match input' with
          | [] => (.fail [] b', warn e')
          | c2 :: rest2 =>
            if c2 ≠ indexDelimiter then (.fail (c2 :: rest2) b', warn e')
            else
              match tryReadRealNumber rest2 (b' - 1) e' with
              | (.fail input'' b'', e'') => (.fail input'' b'', e'')
              | (.ok value input'' b'', e'') =>
                tryReadSparseSampleLoop (values ++ [value]) (indices ++ [index])
                  sampleSize fuel input'' b'' e''

/-- `TextParser::TryReadSparseSample`. -/
def tryReadSparseSample (values : List ℚ) (indices : List Nat) (sampleSize : Nat)
    (input : List Int) (bytesToRead : Nat) (e : ErrState) :
    ScanResult (List ℚ × List Nat) × ErrState :=
  tryReadSparseSampleLoop values indices sampleSize bytesToRead input bytesToRead e

/-- The body of `TextParser::TryReadSample` from the `TryGetInputId` call
on (lines 615-675).  The in-place mutation plus rollback-on-failure of
the C++ buffers is modelled functionally: the sequence is only updated on
success, which is exactly the net effect of append-then-resize.  The
variant of the addressed buffer always matches the stream descriptor
(the source uses an unchecked cast); mismatching and out-of-range
accesses take defensive no-change branches. -/
def tryReadSampleCore (cfg : ParserConfig) (sequence : SequenceBuffer)
    (input : List Int) (b : Nat) (e : ErrState) :
    Except Fatal (Bool × SequenceBuffer × List Int × Nat × ErrState) :=
  match tryGetInputId cfg input b e with
  | (.fail input' b', e') =>
    match incrementNumberOfErrorsOrDie e' with
    | .error f => .error f
    | .ok e'' => .ok (false, sequence, input', b', e'')
  | (.ok id input' b', e') =>
    match (cfg.streamInfos.getD id defaultStreamInfo).type with
    | .dense =>
      match sequence.getD id defaultBuffer with
      | .dense d =>
        match tryReadDenseSample d.buffer
            (cfg.streamInfos.getD id defaultStreamInfo).sampleDimension input' b' e' with
        | .error f => .error f
        | .ok (.fail input'' b'', e'') =>
          match incrementNumberOfErrorsOrDie e'' with
          | .error f => .error f
          | .ok e3 => .ok (false, sequence, input'', b'', e3)
        | .ok (.ok newValues input'' b'', e'') =>
          .ok (true, sequence.set id (.dense ⟨newValues, d.numberOfSamples + 1⟩),
            input'', b'', e'')
      | .sparse _ => .ok (false, sequence, input', b', e')
    | .sparse =>
      match sequence.getD id defaultBuffer with
      | .sparse s =>
        match tryReadSparseSample s.buffer s.indices
            (cfg.streamInfos.getD id defaultStreamInfo).sampleDimension input' b' e' with
        | (.fail input'' b'', e'') =>
          match incrementNumberOfErrorsOrDie e'' with
          | .error f => .error f
          | .ok e3 => .ok (false, sequence, input'', b'', e3)
        | (.ok (newValues, newIndices) input'' b'', e'') =>
          .ok (true, sequence.set id (.sparse
            ⟨newValues, newIndices,
              s.nnzCounts ++ [newValues.length - s.buffer.length],
              s.totalNnzCount + (newValues.length - s.buffer.length),
              s.numberOfSamples + 1⟩),
            input'', b'', e'')
      | .dense _ => .ok (false, sequence, input', b', e')

/-- `TextParser::TryReadSample` (lines 582-676): pipe check, escape
handling, then `tryReadSampleCore`.  The source asserts a byte is
available and is only called with a positive budget; the corresponding
branches are defensive no-ops. -/
def tryReadSample (cfg : ParserConfig) (sequence : SequenceBuffer) :
    List Int → Nat → ErrState → Except Fatal (Bool × SequenceBuffer × List Int × Nat × ErrState)
  | [], b, e => .ok (false, sequence, [], b, e)
  | c :: rest, 0, e => .ok (false, sequence, c :: rest, 0, e)
  | c :: rest, b + 1, e =>
    if c ≠ nameMarker then
      match incrementNumberOfErrorsOrDie (warn e) with
      | .error f => .error f
      | .ok e' => .ok (false, sequence, c :: rest, b + 1, e')
    else
      match rest, b with
      | c2 :: rest2, b2 + 1 =>
        if c2 = escapeSymbol then
          .ok (false, sequence, rest2, b2, e)
        else
          tryReadSampleCore cfg sequence (c2 :: rest2) (b2 + 1) e
      | rest', b' => tryReadSampleCore cfg sequence rest' b' e

/-- `TextParser::SkipToNextInput` (lines 925-939). -/
def skipToNextInput : List Int → Nat → List Int × Nat
  | input, 0 => (input, 0)
  | [], b => ([], b)
  | c :: rest, b + 1 =>
    if c = nameMarker ∨ c = rowDelimiter then (c :: rest, b + 1)
    else skipToNextInput rest b

/-- The unconditional digit-skip at the start of `TryReadRow`
(lines 518-523, the legacy sequence-id run). -/
def skipDigits : List Int → Nat → List Int × Nat
  | input, 0 => (input, 0)
  | [], b => ([], b)
  | c :: rest, b + 1 =>
    if isdigitC c then skipDigits rest b else (c :: rest, b + 1)

/-- The main loop of `TextParser::TryReadRow` (lines 525-578), with the
fuel convention: every iteration consumes at least one byte (benign
delimiters and the row delimiter are consumed directly; a failing
`TryReadSample` either consumed the pipe or leaves `SkipToNextInput`
standing on a byte it consumes), so fuel = bytesToRead at entry makes the
`fuel = 0` branch coincide with the budget-exhaustion exit (the
missing-trailing-newline warning). -/
def tryReadRowLoop (cfg : ParserConfig) :
    SequenceBuffer → Nat → Nat → List Int → Nat → ErrState →
    Except Fatal (Bool × SequenceBuffer × List Int × Nat × ErrState)
  | sequence, _, 0, input, b, e =>
    .ok (false, sequence, input, b, warn e)
  | sequence, _, _ + 1, input, 0, e =>
    .ok (false, sequence, input, 0, warn e)
  | sequence, _, _ + 1, [], b, e =>
    .ok (false, sequence, [], b, warn e)
  | sequence, numSampleRead, fuel + 1, c :: rest, b + 1, e =>
    if c = columnDelimiter ∨ c = valueDelimiter ∨ c = carriageReturn then
      tryReadRowLoop cfg sequence numSampleRead fuel rest b e
    else if c = rowDelimiter then
      .ok (decide (0 < numSampleRead), sequence, rest, b,
        if numSampleRead = 0 then warn e
        else if cfg.streamInfos.length < numSampleRead then warn e
        else e)
    else
      match tryReadSample cfg sequence (c :: rest) (b + 1) e with
      | .error f => .error f
      | .ok (success, sequence', input', b', e') =>
        if success then
          tryReadRowLoop cfg sequence' (numSampleRead + 1) fuel input' b' e'
        else
          match skipToNextInput input' b' with
          | (input'', b'') => tryReadRowLoop cfg sequence' numSampleRead fuel input'' b'' e'

/-- `TextParser::TryReadRow` (lines 515-579): skip a leading digit run,
then run the row loop; the returned Boolean is whether any sample was
read, and is `false` on the exhaustion exit. -/
def tryReadRow (cfg : ParserConfig) (sequence : SequenceBuffer)
    (input : List Int) (bytesToRead : Nat) (e : ErrState) :
    Except Fatal (Bool × SequenceBuffer × List Int × Nat × ErrState) :=
  match skipDigits input bytesToRead with
  | (input', b') => tryReadRowLoop cfg sequence 0 b' input' b' e

/-! ## Chunk loader (section 4.E of the spec) -/

/-- The part of the indexer-produced sequence descriptor that the loader
consumes (id, row count, byte length); the file offset is handled by the
byte-buffered reader, modelled by handing the loader the sequence's bytes
directly. -/
structure SequenceDescriptor where
  id : Nat
  numberOfSamples : Nat
  byteSize : Nat
deriving DecidableEq

/-- The per-stream buffer allocation of `LoadSequence` (lines 416-430):
dense buffers start empty (the size passed to the constructor is a
capacity reservation), sparse buffers start empty. -/
def makeBuffers (streamInfos : List StreamInfo) : SequenceBuffer :=
  streamInfos.map fun s =>
    match s.type with
    | .dense => .dense ⟨[], 0⟩
    | .sparse => .sparse ⟨[], [], [], 0, 0⟩

/-- The row loop of `LoadSequence` (lines 432-463): call `TryReadRow`
once per expected row, incrementing the error budget (or dying) and
warning on each failed row, and breaking with a warning when the byte
budget is exhausted before the expected row count is reached. -/
def loadSequenceRows (cfg : ParserConfig) (expected : Nat) :
    Nat → Nat → SequenceBuffer → List Int → Nat → ErrState →
    Except Fatal (Nat × SequenceBuffer × List Int × Nat × ErrState)
  | 0, numRowsRead, sequence, input, b, e => .ok (numRowsRead, sequence, input, b, e)
  | remaining + 1, numRowsRead, sequence, input, b, e =>
    match tryReadRow cfg sequence input b e with
    | .error f => .error f
    | .ok (success, sequence', input', b', e') =>
      if success then
        if b' = 0 ∧ numRowsRead + 1 < expected then
          .ok (numRowsRead + 1, sequence', input', b', warn e')
        else
          loadSequenceRows cfg expected remaining (numRowsRead + 1) sequence' input' b' e'
      else
        match incrementNumberOfErrorsOrDie e' with
        | .error f => .error f
        | .ok e2 =>
          if b' = 0 ∧ numRowsRead < expected then
            .ok (numRowsRead, sequence', input', b', warn (warn e2))
          else
            loadSequenceRows cfg expected remaining numRowsRead sequence' input' b' (warn e2)

/-- `TextParser::LoadSequence` (lines 391-513) from the point where the
byte window stands at the sequence's file offset: optional sequence-id
verification, buffer allocation, the row loop, and the post-loop
empty-input and duplicate-input checks.  The unconditional `ERROR:`
print for an empty input stream and the `INFO:` trace print are not
warning-channel events and are not counted. -/
def loadSequence (cfg : ParserConfig) (verifyId : Bool) (dsc : SequenceDescriptor)
    (input : List Int) (e : ErrState) :
    Except Fatal (SequenceBuffer × List Int × Nat × ErrState) :=
  match
    (if verifyId then
      match tryReadUint64 input dsc.byteSize e with
      | (.ok rid input' b', e') =>
        if rid = dsc.id then Except.ok (input', b', e')
        else Except.error (⟨printWarningNotification e', seqIdMismatchMessage dsc.id⟩ : Fatal)
      | (.fail _ _, e') =>
        Except.error (⟨printWarningNotification e', seqIdMismatchMessage dsc.id⟩ : Fatal)
    else Except.ok (input, dsc.byteSize, e)) with
  | .error f => .error f
  | .ok (input1, b1, e1) =>
    match loadSequenceRows cfg dsc.numberOfSamples dsc.numberOfSamples 0
        (makeBuffers cfg.streamInfos) input1 b1 e1 with
    | .error f => .error f
    | .ok (_, sequence, input2, b2, e2) =>
      let e3 := sequence.foldl
        (fun acc sb => if dsc.numberOfSamples < numberOfSamplesOf sb then warn acc else acc) e2
      if sequence.any fun sb => numberOfSamplesOf sb = 0 then
        .error ⟨printWarningNotification e3, malformedInputMessage⟩
      else if sequence.any fun sb => dsc.numberOfSamples < numberOfSamplesOf sb then
        match incrementNumberOfErrorsOrDie e3 with
        | .error f => .error f
        | .ok e4 => .ok (sequence, input2, b2, e4)
      else .ok (sequence, input2, b2, e3)

/-- The `verifyId` argument `LoadChunk` passes to every `LoadSequence`
call (line 333): the negation of the parser's skip flag. -/
def loadChunkVerifyFlag (skipSequenceIds : Bool) : Bool := !skipSequenceIds

/-- `TextParser::LoadChunk` (lines 326-335): load every sequence of the
descriptor in order, passing `loadChunkVerifyFlag` of the parser's skip
flag, and map ids to the loaded buffers. -/
def loadChunk (cfg : ParserConfig) (skipSequenceIds : Bool) :
    List (SequenceDescriptor × List Int) → ErrState →
    Except Fatal (List (Nat × SequenceBuffer) × ErrState)
  | [], e => .ok ([], e)
  | (dsc, bytes) :: rest, e =>
    match loadSequence cfg (loadChunkVerifyFlag skipSequenceIds) dsc bytes e with
    | .error f => .error f
    | .ok (seqbuf, _, _, e') =>
      match loadChunk cfg skipSequenceIds rest e' with
      | .error f => .error f
      | .ok (m, e'') => .ok ((dsc.id, seqbuf) :: m, e'')

/-- Modelled from the spec: `Indexer::HasSequenceIds` (the Indexer's
source is not included under src/; only TextParser.cpp consumes it).
Spec section 4.D: the indexer reports whether every row begins with a
matching integer prefix, and "if the configuration says skip sequence
ids, set `has_sequence_ids` to false". -/
def indexerHasSequenceIds (skipSequenceIds : Bool) (fileHasIds : Bool) : Bool :=
  if skipSequenceIds then false else fileHasIds

/-- The reassignment in `TextParser::Initialize` (line 173):
`m_skipSequenceIds = !m_indexer->HasSequenceIds()` after the indexer was
built with the configured skip flag. -/
def skipSequenceIdsAfterInit (configSkip : Bool) (fileHasIds : Bool) : Bool :=
  !(indexerHasSequenceIds configSkip fileHasIds)

/-! ## Chunk cache (section 4.F of the spec) -/

/-- The cache-relevant fields of `TextParser::TextDataChunk`: the chunk
id, the size of `m_sequenceMap`, and `m_sequenceRequestCount`. -/
structure TextDataChunk where
  id : Nat
  sequenceMapSize : Nat
  sequenceRequestCount : Nat
deriving DecidableEq

/-- `SIZE_MAX`. -/
def sizeMax : Nat := u64 - 1

/-- `size_t` subtraction `a - b` (wraps modulo `2^64`). -/
def sizeTSub (a b : Nat) : Nat := (a % u64 + u64 - b % u64) % u64

/-- `chunk.m_sequenceMap.size() - numSequencesUsed` from `GetChunk`
(line 305), in `size_t` arithmetic. -/
def numSequencesLeft (ch : TextDataChunk) : Nat :=
  sizeTSub ch.sequenceMapSize ch.sequenceRequestCount

/-- The eviction scan of `GetChunk` (lines 298-311): iterate the cache in
order, keeping the first chunk whose `numSequencesLeft` is strictly below
the running minimum; both accumulators start at `SIZE_MAX`. -/
def evictionCandidate : List (Nat × TextDataChunk) → Nat × Nat → Nat × Nat
  | [], acc => acc
  | (cid, ch) :: rest, (candidateId, minLeft) =>
    if numSequencesLeft ch < minLeft then evictionCandidate rest (cid, numSequencesLeft ch)
    else evictionCandidate rest (candidateId, minLeft)

/-- `std::map::erase(key)`: remove the entry with the given key if
present. -/
def eraseKey : List (Nat × TextDataChunk) → Nat → List (Nat × TextDataChunk)
  | [], _ => []
  | (k, v) :: rest, key => if k = key then rest else (k, v) :: eraseKey rest key

/-- `std::map` insertion `m_chunkCache[chunkId] = textChunk`, keeping the
key order that `std::map` iteration exposes. -/
def insertSorted : List (Nat × TextDataChunk) → Nat → TextDataChunk → List (Nat × TextDataChunk)
  | [], k, v => [(k, v)]
  | (k0, v0) :: rest, k, v =>
    if k < k0 then (k, v) :: (k0, v0) :: rest
    else if k = k0 then (k, v) :: rest
    else (k0, v0) :: insertSorted rest k v

/-- `TextParser::GetChunk` (lines 277-324): on a hit return the cached
chunk; on a miss load (`loaded` is the chunk `LoadChunk` produced, with a
fresh request count), evict the scan's candidate when the cache is full,
and insert when caching is enabled.  The returned Boolean records whether
the chunk was decoded afresh. -/
def getChunk (cache : List (Nat × TextDataChunk)) (chunkCacheSize : Nat)
    (chunkId : Nat) (loaded : TextDataChunk) :
    TextDataChunk × List (Nat × TextDataChunk) × Bool :=
  match cache.lookup chunkId with
  | some ch => (ch, cache, false)
  | none =>
    let cache1 :=
      if 0 < chunkCacheSize ∧ cache.length = chunkCacheSize then
        eraseKey cache (evictionCandidate cache (sizeMax, sizeMax)).1
      else cache
    if 0 < chunkCacheSize then (loaded, insertSorted cache1 chunkId loaded, true)
    else (loaded, cache1, true)

/-! ## Invariants (sections 3 and 8 of the spec) -/

/-- The sparse-buffer invariant of the spec (section 3): parallel values
and indices, nonzero counts summing to the running total, one count per
sample. -/
def sparseInvariant (s : SparseInputStreamBuffer) : Prop :=
  s.buffer.length = s.indices.length ∧
  s.indices.length = s.nnzCounts.sum ∧
  s.nnzCounts.sum = s.totalNnzCount ∧
  s.nnzCounts.length = s.numberOfSamples

/-- The per-buffer invariant checked across `TryReadSample`: trivial for
dense buffers, `sparseInvariant` for sparse ones. -/
def bufferInvariant : InputStreamBuffer → Prop
  | .dense _ => True
  | .sparse s => sparseInvariant s

/-- The dense-buffer invariant of the spec (section 8, universal
invariant 1): for every dense stream the buffer length is the sample
count times the declared dimension. -/
def denseInvariant (cfg : ParserConfig) (sequence : SequenceBuffer) : Prop :=
  ∀ i, i < sequence.length →
    ∀ d, sequence.getD i defaultBuffer = .dense d →
      d.buffer.length = d.numberOfSamples * (cfg.streamInfos.getD i defaultStreamInfo).sampleDimension

/-- Well-formedness of the configuration against a sequence buffer, as
established by `LoadSequence`'s allocation: one buffer per stream, alias
ids in range, and buffer variants matching the declared storage types. -/
def configMatches (cfg : ParserConfig) (sequence : SequenceBuffer) : Prop :=
  cfg.streamInfos.length = sequence.length ∧
  (∀ p ∈ cfg.aliasToIdMap, p.2 < cfg.streamInfos.length) ∧
  ∀ i, i < sequence.length →
    ((cfg.streamInfos.getD i defaultStreamInfo).type = .dense →
      ∃ d, sequence.getD i defaultBuffer = .dense d) ∧
    ((cfg.streamInfos.getD i defaultStreamInfo).type = .sparse →
      ∃ s, sequence.getD i defaultBuffer = .sparse s)

/-! ## Concrete instances used in counterexamples and witnesses -/

/-- One dense stream of dimension 2 with alias `x`. -/
def cfgDense2 : ParserConfig := ⟨[⟨.dense, 2⟩], [([120], 0)], 1⟩

/-- One dense stream of dimension 1 with alias `x`. -/
def cfgDense1 : ParserConfig := ⟨[⟨.dense, 1⟩], [([120], 0)], 1⟩

/-- One sparse stream of dimension 10 with alias `y`. -/
def cfgSparse10 : ParserConfig := ⟨[⟨.sparse, 10⟩], [([121], 0)], 1⟩

/-- A fresh sequence buffer for one dense stream. -/
def seqDense : SequenceBuffer := [.dense ⟨[], 0⟩]

/-- A fresh sequence buffer for one sparse stream. -/
def seqSparse : SequenceBuffer := [.sparse ⟨[], [], [], 0, 0⟩]

/-- An error state with budget 7, trace level Warning, file name `f`. -/
def errBudget7 : ErrState := ⟨7, false, 1, 0, "f"⟩

/-- An error state with budget 0, trace level Error, file name `f`. -/
def errBudget0 : ErrState := ⟨0, false, 0, 0, "f"⟩

/-- The digit string of `184467440737095516159`, which is
`10 * (2^64 - 1) + 9`: its accumulator run wraps to `2^64 - 1` on the
last digit without ever decreasing. -/
def overflowDigits : List Int :=
  [49, 56, 52, 52, 54, 55, 52, 52, 48, 55, 51, 55, 48, 57, 53, 53, 49, 54, 49, 53, 57]


/-! ## Helper lemmas -/

theorem seq_getD_set_eq {α : Type} (l : List α) (i : Nat) (a d : α) (h : i < l.length) :
    (l.set i a).getD i d = a := by
  induction l generalizing i with
  | nil => simp at h
  | cons x xs ih =>
    cases i with
    | zero => simp [List.set, List.getD]
    | succ j =>
      simp only [List.set, List.getD, List.getElem?_cons_succ]
      exact ih j (by simpa using h)

theorem seq_getD_set_ne {α : Type} (l : List α) (i j : Nat) (a d : α) (h : i ≠ j) :
    (l.set i a).getD j d = l.getD j d := by
  induction l generalizing i j with
  | nil => simp [List.set]
  | cons x xs ih =>
    cases i with
    | zero =>
      cases j with
      | zero => exact absurd rfl h
      | succ j' => simp [List.set, List.getD]
    | succ i' =>
      cases j with
      | zero => simp [List.set, List.getD]
      | succ j' =>
        simp only [List.set, List.getD, List.getElem?_cons_succ]
        exact ih i' j' fun hc => h (by rw [hc])

theorem digit_not_delimiter {c : Int} (h : isdigitC c = true) : isDelimiter c = false := by
  simp only [isdigitC, decide_eq_true_eq] at h
  simp only [isDelimiter, valueDelimiter, nameMarker, columnDelimiter, indexDelimiter,
    rowDelimiter, carriageReturn, decide_eq_false_iff_not]
  omega

theorem tryReadUint64Loop_ok_iff (input : List Int) :
    ∀ (n v : Nat) (found : Bool) (e : ErrState) (w : Nat) (rest' : List Int)
      (n' : Nat) (e' : ErrState),
      tryReadUint64Loop v found input n e = (.ok w rest' n', e') ↔
      ∃ ds c rest, input = ds ++ c :: rest ∧ (found = true ∨ ds ≠ []) ∧
        (∀ d ∈ ds, isdigitC d = true) ∧ isDelimiter c = true ∧
        ds.length < n ∧ u64acc v ds = some w ∧
        rest' = c :: rest ∧ n' = n - ds.length ∧ e' = e := by
  induction input with
  | nil =>
    intro n v found e w rest' n' e'
    constructor
    · intro h
      cases n <;> simp [tryReadUint64Loop] at h
    · rintro ⟨ds, c, rest, habs, -⟩
      exact absurd habs (by simp)
  | cons c0 input0 ih =>
    intro n v found e w rest' n' e'
    cases n with
    | zero =>
      constructor
      · intro h
        simp [tryReadUint64Loop] at h
      · rintro ⟨ds, c, rest, -, -, -, -, hlen, -⟩
        omega
    | succ m =>
      by_cases hd : isdigitC c0 = true
      · by_cases hov : ((v * 10 + (c0 - 48).toNat) % u64) < v
        · constructor
          · intro h
            simp [tryReadUint64Loop, hd, hov] at h
          · rintro ⟨ds, c, rest, heq, hfound, hds, hdelim, hlen, hacc, hr, hn, he⟩
            cases ds with
            | nil =>
              simp only [List.nil_append, List.cons.injEq] at heq
              rw [heq.1] at hd
              rw [digit_not_delimiter hd] at hdelim
              exact absurd hdelim (by simp)
            | cons d ds' =>
              simp only [List.cons_append, List.cons.injEq] at heq
              obtain ⟨hd0, hrest⟩ := heq
              subst hd0
              simp [u64acc, hov] at hacc
        · have hstep : tryReadUint64Loop v found (c0 :: input0) (m + 1) e =
              tryReadUint64Loop ((v * 10 + (c0 - 48).toNat) % u64) true input0 m e := by
            simp [tryReadUint64Loop, hd, hov]
          rw [hstep, ih]
          constructor
          · rintro ⟨ds', c, rest, heq, -, hds, hdelim, hlen, hacc, hr, hn, he⟩
            refine ⟨c0 :: ds', c, rest, by simp [heq], Or.inr (by simp), ?_, hdelim,
              by simpa using Nat.succ_lt_succ hlen, ?_, hr,
              by simp only [List.length_cons]; omega, he⟩
            · intro d hmem
              rcases List.mem_cons.mp hmem with h1 | h2
              · rw [h1]; exact hd
              · exact hds d h2
            · simpa [u64acc, hov] using hacc
          · rintro ⟨ds, c, rest, heq, hfound, hds, hdelim, hlen, hacc, hr, hn, he⟩
            cases ds with
            | nil =>
              simp only [List.nil_append, List.cons.injEq] at heq
              rw [heq.1] at hd
              rw [digit_not_delimiter hd] at hdelim
              exact absurd hdelim (by simp)
            | cons d ds' =>
              simp only [List.cons_append, List.cons.injEq] at heq
              obtain ⟨hd0, hrest⟩ := heq
              subst hd0
              refine ⟨ds', c, rest, hrest, Or.inl rfl,
                fun x hx => hds x (List.mem_cons_of_mem _ hx), hdelim,
                by simpa using Nat.lt_of_succ_lt_succ (by simpa using hlen), ?_, hr,
                by simp at hn ⊢; omega, he⟩
              simpa [u64acc, hov] using hacc
      · by_cases hdel : isDelimiter c0 = true
        · cases found with
          | true =>
            have hstep : tryReadUint64Loop v true (c0 :: input0) (m + 1) e =
                (.ok v (c0 :: input0) (m + 1), e) := by
              simp [tryReadUint64Loop, hd, hdel]
            rw [hstep]
            constructor
            · intro h
              simp only [Prod.mk.injEq, ScanResult.ok.injEq] at h
              obtain ⟨⟨hw, hr, hn⟩, he⟩ := h
              exact ⟨[], c0, input0, by simp, Or.inl rfl, by simp, hdel, by simp,
                by simp [u64acc, hw], by simp [hr], by simp [← hn], he.symm⟩
            · rintro ⟨ds, c, rest, heq, -, hds, hdelim, hlen, hacc, hr, hn, he⟩
              cases ds with
              | nil =>
                simp only [List.nil_append, List.cons.injEq] at heq
                simp only [u64acc, Option.some.injEq] at hacc
                obtain ⟨hc, hrest⟩ := heq
                subst hc; subst hrest; subst he
                simp [hr, hn, hacc]
              | cons d ds' =>
                simp only [List.cons_append, List.cons.injEq] at heq
                obtain ⟨hd0, -⟩ := heq
                subst hd0
                exact absurd (hds _ (List.mem_cons_self _ _)) (by simp [hd])
          | false =>
            constructor
            · intro h
              simp [tryReadUint64Loop, hd, hdel] at h
            · rintro ⟨ds, c, rest, heq, hfound, hds, -⟩
              cases ds with
              | nil => simp at hfound
              | cons d ds' =>
                simp only [List.cons_append, List.cons.injEq] at heq
                obtain ⟨hd0, -⟩ := heq
                subst hd0
                exact absurd (hds _ (List.mem_cons_self _ _)) (by simp [hd])
        · constructor
          · intro h
            simp [tryReadUint64Loop, hd, hdel] at h
          · rintro ⟨ds, c, rest, heq, -, hds, hdelim, -⟩
            cases ds with
            | nil =>
              simp only [List.nil_append, List.cons.injEq] at heq
              rw [heq.1] at hdel
              exact absurd hdelim (by simp [hdel])
            | cons d ds' =>
              simp only [List.cons_append, List.cons.injEq] at heq
              obtain ⟨hd0, -⟩ := heq
              subst hd0
              exact absurd (hds _ (List.mem_cons_self _ _)) (by simp [hd])

/-! ## C2: the error budget -/

/-- C2: with the budget set to `n` via `SetMaxAllowedErrors(n)`, the first
`n` calls to `IncrementNumberOfErrorsOrDie` return normally (leaving the
budget at zero), and the `(n+1)`-th call prints any pending warning
notification and then fails fatally with exactly the message
`Reached the maximum number of allowed errors while reading the input
file (<name>).`. -/
theorem c2_error_budget (n : Nat) (hadW : Bool) (tl wp : Nat) (fn : String) :
    iterateErrors n ⟨n, hadW, tl, wp, fn⟩ = .ok ⟨0, hadW, tl, wp, fn⟩ ∧
    iterateErrors (n + 1) ⟨n, hadW, tl, wp, fn⟩ =
      .error ⟨printWarningNotification ⟨0, hadW, tl, wp, fn⟩, maxErrorsMessage fn⟩ := by
  induction n with
  | zero => exact ⟨rfl, rfl⟩
  | succ n ih =>
    refine ⟨?_, ?_⟩
    · show iterateErrors (n + 1) ⟨n + 1, hadW, tl, wp, fn⟩ = _
      simp only [iterateErrors, incrementNumberOfErrorsOrDie, Nat.succ_ne_zero, if_false,
        Nat.add_sub_cancel]
      exact ih.1
    · show iterateErrors (n + 1 + 1) ⟨n + 1, hadW, tl, wp, fn⟩ = _
      simp only [iterateErrors, incrementNumberOfErrorsOrDie, Nat.succ_ne_zero, if_false,
        Nat.add_sub_cancel]
      exact ih.2

/-! ## C9: skip_sequence_ids forces the no-sequence-id interpretation -/

/-- C9: if the configuration sets `skipSequenceIds` to true then,
whatever the file contents (`fileHasIds`), the spec-modelled indexer
reports no sequence ids, `Initialize`'s reassignment leaves the skip flag
true, and `LoadChunk` therefore passes `verifyId = false` to every
`LoadSequence` call, so no embedded sequence id is read and verified. -/
theorem c9_skip_sequence_ids (fileHasIds : Bool) :
    indexerHasSequenceIds true fileHasIds = false ∧
    skipSequenceIdsAfterInit true fileHasIds = true ∧
    loadChunkVerifyFlag (skipSequenceIdsAfterInit true fileHasIds) = false :=
  ⟨rfl, rfl, rfl⟩

/-! ## C8: the chunk cache -/

/-- C8 (failing input): with `chunk_cache_size = 1` and the single cached
chunk holding one sequence already requested twice, the `size_t`
difference `m_sequenceMap.size() - m_sequenceRequestCount` wraps to
`SIZE_MAX`, the eviction scan finds no candidate (contradicting the
source's `assert(candidateId != SIZE_MAX)`), `erase(SIZE_MAX)` removes
nothing, and the insert grows the cache to 2 entries, exceeding the
configured capacity. -/
theorem c8_cache_exceeds_capacity :
    evictionCandidate [(0, ⟨0, 1, 2⟩)] (sizeMax, sizeMax) = (sizeMax, sizeMax) ∧
    (getChunk [(0, ⟨0, 1, 2⟩)] 1 1 ⟨1, 3, 0⟩).2.1 = [(0, ⟨0, 1, 2⟩), (1, ⟨1, 3, 0⟩)] ∧
    (getChunk [(0, ⟨0, 1, 2⟩)] 1 1 ⟨1, 3, 0⟩).2.1.length = 2 := by
  refine ⟨?_, ?_, ?_⟩ <;> decide

/-! ## C10: empty rows -/

/-- C10: a row delimiter reached with zero samples read makes
`TryReadRow` return false after only a warning (the budget is untouched
at row level), and `LoadSequence` then decrements the budget for the
failed row, so with `max_allowed_errors = 0` a sequence containing an
empty row is fatal with the budget-exhaustion message. -/
theorem c10_empty_row (cfg : ParserConfig) (sequence : SequenceBuffer)
    (rest : List Int) (b : Nat) (e : ErrState) :
    tryReadRow cfg sequence (rowDelimiter :: rest) (b + 1) e =
      .ok (false, sequence, rest, b, warn e) ∧
    loadSequence cfgDense1 false ⟨3, 1, 1⟩ [10] errBudget0 =
      .error ⟨[], maxErrorsMessage "f"⟩ := by
  constructor
  · rfl
  · rfl

/-! ## C1: sparse index bound -/

/-- C1 (counterexample): on the sparse sample `3:5|` for a stream of
dimension 3, `TryReadSparseSample` succeeds and appends the index 3,
which is not strictly below the sample dimension — the claim's strict
bound and its claimed rejection of `index = sample_dimension` both fail
(the source only rejects `index > sampleSize`). -/
theorem c1_index_eq_dim_accepted :
    tryReadSparseSample [] [] 3 [51, 58, 53, 124] 4 errBudget7 =
      (.ok ([5], [3]) [124] 1, errBudget7) ∧ ¬ (3 < 3) := by
  exact ⟨by decide, by decide⟩

theorem tryReadSparseSampleLoop_ok (sampleSize : Nat) :
    ∀ (fuel : Nat) (values : List ℚ) (indices : List Nat) (input : List Int) (b : Nat)
      (e : ErrState) (values' : List ℚ) (indices' : List Nat) (input' : List Int)
      (b' : Nat) (e' : ErrState),
      tryReadSparseSampleLoop values indices sampleSize fuel input b e =
        (.ok (values', indices') input' b', e') →
      ∃ addV addI, values' = values ++ addV ∧ indices' = indices ++ addI ∧
        addV.length = addI.length ∧ ∀ i ∈ addI, i ≤ sampleSize := by
  intro fuel
  induction fuel with
  | zero =>
    intro values indices input b e values' indices' input' b' e' h
    simp [tryReadSparseSampleLoop] at h
  | succ fuel ih =>
    intro values indices input b e values' indices' input' b' e' h
    cases input with
    | nil =>
      cases b <;> simp [tryReadSparseSampleLoop] at h
    | cons c rest =>
      cases b with
      | zero => simp [tryReadSparseSampleLoop] at h
      | succ b0 =>
        rw [tryReadSparseSampleLoop] at h
        split at h
        · simp only [Prod.mk.injEq, ScanResult.ok.injEq, Prod.mk.injEq] at h
          obtain ⟨⟨⟨hv, hi⟩, -, -⟩, -⟩ := h
          exact ⟨[], [], by simp [hv], by simp [hi], rfl, by simp⟩
        · split at h
          · exact ih _ _ _ _ _ _ _ _ _ _ h
          · split at h
            · simp at h
            · rename_i index input1 b1 e1 heq1
              split at h
              · simp at h
              · split at h
                · simp at h
                · rename_i c2 rest2
                  split at h
                  · simp at h
                  · split at h
                    · simp at h
                    · rename_i hnotlt _ _ _ value input2 b2 e2 heq2
                      obtain ⟨addV', addI', hv, hi, hlen, hbound⟩ :=
                        ih _ _ _ _ _ _ _ _ _ _ h
                      refine ⟨value :: addV', index :: addI', ?_, ?_, by simp [hlen], ?_⟩
                      · rw [hv]; simp
                      · rw [hi]; simp
                      · intro i hmem
                        rcases List.mem_cons.mp hmem with h1 | h2
                        · rw [h1]; omega
                        · exact hbound i h2

theorem tryReadUint64_ok_first_digit {c : Int} {rest : List Int} {n : Nat} {e : ErrState}
    {w : Nat} {input' : List Int} {n' : Nat} {e' : ErrState}
    (h : tryReadUint64 (c :: rest) (n + 1) e = (.ok w input' n', e')) :
    isdigitC c = true := by
  rw [tryReadUint64, tryReadUint64Loop_ok_iff] at h
  obtain ⟨ds, c1, rest1, heq, hfound, hds, -⟩ := h
  cases ds with
  | nil =>
    rcases hfound with h1 | h1 <;> simp at h1
  | cons d ds' =>
    simp only [List.cons_append, List.cons.injEq] at heq
    rw [heq.1]
    exact hds d (List.mem_cons_self _ _)

/-- C1 (amended): every index a successful `TryReadSparseSample` appends
is at most `sample_dimension` (the bound is inclusive, not strict), and
the values and indices grow in parallel; a pair whose index strictly
exceeds `sample_dimension` makes `TryReadSparseSample` warn and fail,
leaving the position where the integer scanner stopped. -/
theorem c1_sparse_index_bound :
    (∀ (values : List ℚ) (indices : List Nat) (sampleSize : Nat) (input : List Int)
      (b : Nat) (e : ErrState) (values' : List ℚ) (indices' : List Nat)
      (input' : List Int) (b' : Nat) (e' : ErrState),
      tryReadSparseSample values indices sampleSize input b e =
        (.ok (values', indices') input' b', e') →
      ∃ addV addI, values' = values ++ addV ∧ indices' = indices ++ addI ∧
        addV.length = addI.length ∧ ∀ i ∈ addI, i ≤ sampleSize) ∧
    (∀ (values : List ℚ) (indices : List Nat) (sampleSize : Nat) (c : Int)
      (rest : List Int) (n : Nat) (e : ErrState) (index : Nat) (input' : List Int)
      (n' : Nat) (e' : ErrState),
      tryReadUint64 (c :: rest) (n + 1) e = (.ok index input' n', e') →
      sampleSize < index →
      tryReadSparseSample values indices sampleSize (c :: rest) (n + 1) e =
        (.fail input' n', warn e')) := by
  constructor
  · intro values indices sampleSize input b e values' indices' input' b' e' h
    rw [tryReadSparseSample] at h
    exact tryReadSparseSampleLoop_ok sampleSize _ _ _ _ _ _ _ _ _ _ _ h
  · intro values indices sampleSize c rest n e index input' n' e' h hlt
    have hdig := tryReadUint64_ok_first_digit h
    simp only [isdigitC, decide_eq_true_eq] at hdig
    have h1 : ¬(c < valueDelimiter ∨ c = nameMarker) := by
      simp only [valueDelimiter, nameMarker, not_or]
      omega
    have h2 : ¬(c = valueDelimiter) := by
      simp only [valueDelimiter]
      omega
    rw [tryReadSparseSample, tryReadSparseSampleLoop, if_neg h1, if_neg h2, h]
    simp [hlt]

/-- C1 (witness): the sample `3:5|` for a sparse stream of dimension 3
succeeds appending parallel entries, every appended index at most 3. -/
theorem c1_sparse_index_bound_witness :
    ∃ addV addI, ([5] : List ℚ) = [] ++ addV ∧ ([3] : List Nat) = [] ++ addI ∧
      addV.length = addI.length ∧ ∀ i ∈ addI, i ≤ 3 :=
  c1_sparse_index_bound.1 [] [] 3 [51, 58, 53, 124] 4 errBudget7 [5] [3] [124] 1 errBudget7
    (by decide)

theorem tryReadDenseSampleLoop_ok (sampleSize : Nat) :
    ∀ (fuel : Nat) (values : List ℚ) (counter : Nat) (input : List Int) (b : Nat)
      (e : ErrState) (values' : List ℚ) (input' : List Int) (b' : Nat) (e' : ErrState),
      tryReadDenseSampleLoop values counter sampleSize fuel input b e =
        .ok (.ok values' input' b', e') →
      ∃ read : List ℚ,
        values' = values ++ read ++ List.replicate (sampleSize - (counter + read.length)) 0 ∧
        counter + read.length ≤ sampleSize := by
  intro fuel
  induction fuel with
  | zero =>
    intro values counter input b e values' input' b' e' h
    simp only [tryReadDenseSampleLoop, denseExhausted] at h
    split at h <;> simp_all
  | succ fuel ih =>
    intro values counter input b e values' input' b' e' h
    cases input with
    | nil =>
      cases b <;>
        (simp only [tryReadDenseSampleLoop, denseExhausted] at h; split at h <;> simp_all)
    | cons c rest =>
      cases b with
      | zero =>
        simp only [tryReadDenseSampleLoop, denseExhausted] at h
        split at h <;> simp_all
      | succ b0 =>
        rw [tryReadDenseSampleLoop] at h
        split at h
        · split at h
          · simp at h
          · split at h
            · rename_i hnotgt hlt
              simp only [Except.ok.injEq, Prod.mk.injEq, ScanResult.ok.injEq] at h
              obtain ⟨⟨hv, -, -⟩, -⟩ := h
              exact ⟨[], by simpa using hv.symm, by simp; omega⟩
            · rename_i hnotgt hnotlt
              simp only [Except.ok.injEq, Prod.mk.injEq, ScanResult.ok.injEq] at h
              obtain ⟨⟨hv, -, -⟩, -⟩ := h
              have hcs : counter = sampleSize := by omega
              refine ⟨[], ?_, by simp; omega⟩
              simp [← hv, hcs]
        · split at h
          · exact ih _ _ _ _ _ _ _ _ _ h
          · split at h
            · rename_i value input1 b1 e1 heq1
              obtain ⟨read', hv, hle⟩ := ih _ _ _ _ _ _ _ _ _ h
              refine ⟨value :: read', ?_, by simp only [List.length_cons]; omega⟩
              rw [hv]
              have harg : counter + 1 + read'.length = counter + (value :: read').length := by
                simp only [List.length_cons]; omega
              rw [harg]
              simp [List.append_assoc]
            · simp at h

/-- What `TryReadSample` (from the alias lookup on) can do to the
sequence buffer: on failure it leaves it unchanged (the rollback), on
success it replaces exactly the addressed stream's buffer with an
appended one. -/
def sampleOutcome (cfg : ParserConfig) (sequence : SequenceBuffer)
    (succ : Bool) (sequence' : SequenceBuffer) : Prop :=
  (succ = false ∧ sequence' = sequence) ∨
  (succ = true ∧ ∃ id,
    ((cfg.streamInfos.getD id defaultStreamInfo).type = .dense ∧
      ∃ d read,
        sequence.getD id defaultBuffer = .dense d ∧
        read.length ≤ (cfg.streamInfos.getD id defaultStreamInfo).sampleDimension ∧
        sequence' = sequence.set id (.dense
          ⟨d.buffer ++ read ++ List.replicate
            ((cfg.streamInfos.getD id defaultStreamInfo).sampleDimension - read.length) 0,
           d.numberOfSamples + 1⟩)) ∨
    ((cfg.streamInfos.getD id defaultStreamInfo).type = .sparse ∧
      ∃ s addV addI,
        sequence.getD id defaultBuffer = .sparse s ∧
        addV.length = addI.length ∧
        (∀ i ∈ addI, i ≤ (cfg.streamInfos.getD id defaultStreamInfo).sampleDimension) ∧
        sequence' = sequence.set id (.sparse
          ⟨s.buffer ++ addV, s.indices ++ addI,
           s.nnzCounts ++ [addV.length], s.totalNnzCount + addV.length,
           s.numberOfSamples + 1⟩)))

theorem tryReadSampleCore_ok_cases (cfg : ParserConfig) (sequence : SequenceBuffer)
    (input : List Int) (b : Nat) (e : ErrState) (succ : Bool)
    (sequence' : SequenceBuffer) (input' : List Int) (b' : Nat) (e' : ErrState)
    (h : tryReadSampleCore cfg sequence input b e = .ok (succ, sequence', input', b', e')) :
    sampleOutcome cfg sequence succ sequence' := by
  rw [tryReadSampleCore] at h
  split at h
  · -- TryGetInputId failed
    split at h
    · simp at h
    · simp only [Except.ok.injEq, Prod.mk.injEq] at h
      exact Or.inl ⟨h.1.symm, h.2.1.symm⟩
  · -- alias resolved to stream id
    rename_i id input1 b1 e1 hgetid
    split at h
    · -- dense stream
      rename_i htype
      split at h
      · -- dense buffer
        rename_i d hbuf
        split at h
        · simp at h
        · -- dense sample failed: rollback
          split at h
          · simp at h
          · simp only [Except.ok.injEq, Prod.mk.injEq] at h
            exact Or.inl ⟨h.1.symm, h.2.1.symm⟩
        · -- dense sample succeeded
          rename_i newValues input2 b2 e2 hdense
          rw [tryReadDenseSample] at hdense
          obtain ⟨read, hvals, hle⟩ :=
            tryReadDenseSampleLoop_ok _ _ _ _ _ _ _ _ _ _ _ hdense
          simp only [Nat.zero_add] at hvals hle
          simp only [Except.ok.injEq, Prod.mk.injEq] at h
          refine Or.inr ⟨h.1.symm, id, Or.inl ⟨htype, d, read, hbuf, hle, ?_⟩⟩
          rw [← h.2.1, hvals]
      · -- buffer variant mismatch (unreachable from LoadSequence)
        simp only [Except.ok.injEq, Prod.mk.injEq] at h
        exact Or.inl ⟨h.1.symm, h.2.1.symm⟩
    · -- sparse stream
      rename_i htype
      split at h
      · -- sparse buffer
        rename_i s hbuf
        split at h
        · -- sparse sample failed: rollback
          split at h
          · simp at h
          · simp only [Except.ok.injEq, Prod.mk.injEq] at h
            exact Or.inl ⟨h.1.symm, h.2.1.symm⟩
        · -- sparse sample succeeded
          rename_i newValues newIndices input2 b2 e2 hsparse
          rw [tryReadSparseSample] at hsparse
          obtain ⟨addV, addI, hv, hi, hlen, hbound⟩ :=
            tryReadSparseSampleLoop_ok _ _ _ _ _ _ _ _ _ _ _ _ hsparse
          simp only [Except.ok.injEq, Prod.mk.injEq] at h
          refine Or.inr ⟨h.1.symm, id, Or.inr ⟨htype, s, addV, addI, hbuf, hlen, hbound, ?_⟩⟩
          rw [← h.2.1, hv, hi]
          have hcount : (s.buffer ++ addV).length - s.buffer.length = addV.length := by
            simp
          rw [hcount]
      · -- buffer variant mismatch (unreachable from LoadSequence)
        simp only [Except.ok.injEq, Prod.mk.injEq] at h
        exact Or.inl ⟨h.1.symm, h.2.1.symm⟩

theorem tryReadSample_ok_cases (cfg : ParserConfig) (sequence : SequenceBuffer)
    (input : List Int) (b : Nat) (e : ErrState) (succ : Bool)
    (sequence' : SequenceBuffer) (input' : List Int) (b' : Nat) (e' : ErrState)
    (h : tryReadSample cfg sequence input b e = .ok (succ, sequence', input', b', e')) :
    sampleOutcome cfg sequence succ sequence' := by
  cases input with
  | nil =>
    simp only [tryReadSample, Except.ok.injEq, Prod.mk.injEq] at h
    exact Or.inl ⟨h.1.symm, h.2.1.symm⟩
  | cons c rest =>
    cases b with
    | zero =>
      simp only [tryReadSample, Except.ok.injEq, Prod.mk.injEq] at h
      exact Or.inl ⟨h.1.symm, h.2.1.symm⟩
    | succ b0 =>
      rcases rest with _ | ⟨c2, rest2⟩
      · -- nothing after the pipe: fall through to the alias scan
        simp only [tryReadSample] at h
        split at h
        · split at h
          · simp at h
          · simp only [Except.ok.injEq, Prod.mk.injEq] at h
            exact Or.inl ⟨h.1.symm, h.2.1.symm⟩
        · exact tryReadSampleCore_ok_cases _ _ _ _ _ _ _ _ _ _ h
      · rcases b0 with _ | b2
        · -- budget exhausted after the pipe: fall through to the alias scan
          simp only [tryReadSample] at h
          split at h
          · split at h
            · simp at h
            · simp only [Except.ok.injEq, Prod.mk.injEq] at h
              exact Or.inl ⟨h.1.symm, h.2.1.symm⟩
          · exact tryReadSampleCore_ok_cases _ _ _ _ _ _ _ _ _ _ h
        · -- escape check
          simp only [tryReadSample] at h
          split at h
          · split at h
            · simp at h
            · simp only [Except.ok.injEq, Prod.mk.injEq] at h
              exact Or.inl ⟨h.1.symm, h.2.1.symm⟩
          · split at h
            · simp only [Except.ok.injEq, Prod.mk.injEq] at h
              exact Or.inl ⟨h.1.symm, h.2.1.symm⟩
            · exact tryReadSampleCore_ok_cases _ _ _ _ _ _ _ _ _ _ h

theorem seq_getD_mem {α : Type} (l : List α) (i : Nat) (d : α) (h : i < l.length) :
    l.getD i d ∈ l := by
  induction l generalizing i with
  | nil => simp at h
  | cons x xs ih =>
    cases i with
    | zero => simp [List.getD]
    | succ j =>
      simp only [List.getD, List.getElem?_cons_succ]
      exact List.mem_cons_of_mem _ (ih j (by simpa using h))

/-! ## C6: the dense buffer invariant -/

/-- C6: `TryReadSample` preserves the dense invariant
`buffer.len = numberOfSamples * sample_dimension` for every dense stream
(on failure the rollback leaves the sequence unchanged, on success the
addressed buffer grows by exactly one sample); a successful
`TryReadDenseSample` appends the values read and zero-pads them to
exactly `sample_dimension`; and a dense sample whose value count exceeds
`sample_dimension` fails at its terminator. -/
theorem c6_dense_invariant :
    (∀ (cfg : ParserConfig) (sequence : SequenceBuffer) (input : List Int) (b : Nat)
      (e : ErrState) (succ : Bool) (sequence' : SequenceBuffer) (input' : List Int)
      (b' : Nat) (e' : ErrState),
      tryReadSample cfg sequence input b e = .ok (succ, sequence', input', b', e') →
      denseInvariant cfg sequence →
      denseInvariant cfg sequence' ∧ (succ = false → sequence' = sequence)) ∧
    (∀ (values : List ℚ) (sampleSize : Nat) (input : List Int) (b : Nat) (e : ErrState)
      (values' : List ℚ) (input' : List Int) (b' : Nat) (e' : ErrState),
      tryReadDenseSample values sampleSize input b e = .ok (.ok values' input' b', e') →
      ∃ read : List ℚ, read.length ≤ sampleSize ∧
        values' = values ++ read ++ List.replicate (sampleSize - read.length) 0) ∧
    (∀ (values : List ℚ) (counter sampleSize fuel : Nat) (c : Int)
      (rest : List Int) (b : Nat) (e : ErrState),
      (c < valueDelimiter ∨ c = nameMarker) → sampleSize < counter →
      tryReadDenseSampleLoop values counter sampleSize (fuel + 1) (c :: rest) (b + 1) e =
        .ok (.fail (c :: rest) (b + 1), warn e)) := by
  refine ⟨?_, ?_, ?_⟩
  · intro cfg sequence input b e succ sequence' input' b' e' h hinv
    rcases tryReadSample_ok_cases _ _ _ _ _ _ _ _ _ _ h with
      ⟨hfalse, hunch⟩ | ⟨htrue, id, hcase⟩
    · subst hunch
      exact ⟨hinv, fun _ => rfl⟩
    · refine ⟨?_, ?_⟩
      · intro i hi dd hdd
        rcases hcase with ⟨-, d, read, hbuf, hle, hset⟩ | ⟨-, s, addV, addI, hbuf, -, -, hset⟩
        · rw [hset, List.length_set] at hi
          by_cases hid : id = i
          · subst hid
            rw [hset, seq_getD_set_eq _ _ _ _ hi] at hdd
            have hold := hinv id hi d hbuf
            cases hdd
            simp only [List.length_append, List.length_replicate]
            rw [Nat.succ_mul]
            omega
          · rw [hset, seq_getD_set_ne _ _ _ _ _ hid] at hdd
            exact hinv i hi dd hdd
        · rw [hset, List.length_set] at hi
          by_cases hid : id = i
          · subst hid
            rw [hset, seq_getD_set_eq _ _ _ _ hi] at hdd
            exact absurd hdd (by simp)
          · rw [hset, seq_getD_set_ne _ _ _ _ _ hid] at hdd
            exact hinv i hi dd hdd
      · intro hf
        rw [htrue] at hf
        simp at hf
  · intro values sampleSize input b e values' input' b' e' h
    rw [tryReadDenseSample] at h
    obtain ⟨read, hv, hle⟩ := tryReadDenseSampleLoop_ok _ _ _ _ _ _ _ _ _ _ _ h
    simp only [Nat.zero_add] at hv hle
    exact ⟨read, hle, hv⟩
  · intro values counter sampleSize fuel c rest b e hterm hlt
    rw [tryReadDenseSampleLoop]
    simp [hterm, hlt, Nat.lt_asymm hlt]

/-- C6 (witness): reading `|x 1 2` against the dense stream `x` of
dimension 2 succeeds, and the resulting sequence buffer satisfies the
dense invariant. -/
theorem c6_dense_invariant_witness :
    denseInvariant cfgDense2 [.dense ⟨[1, 2], 1⟩] :=
  (c6_dense_invariant.1 cfgDense2 seqDense [124, 120, 32, 49, 32, 50, 10] 7 errBudget7
    true [.dense ⟨[1, 2], 1⟩] [10] 1 errBudget7 (by decide)
    (fun i hi dd hdd => by
      have hi0 : i = 0 := Nat.lt_one_iff.mp (by simpa [seqDense] using hi)
      subst hi0
      simp only [seqDense, List.getD, List.getElem?_cons_zero, Option.getD_some] at hdd
      cases hdd
      rfl)).1

/-! ## C7: the sparse buffer invariant -/

/-- C7: `TryReadSample` preserves the sparse invariant
`values.len = indices.len = sum(nnz_counts) = total_nnz` and
`nnz_counts.len = numberOfSamples` for every sparse stream: a successful
sparse parse appends parallel values/indices, one `nnz_counts` entry
equal to the number of pairs consumed, adds it to the running total and
increments the sample count, while any failure rolls the buffers back,
leaving the sequence unchanged. -/
theorem c7_sparse_invariant (cfg : ParserConfig) (sequence : SequenceBuffer)
    (input : List Int) (b : Nat) (e : ErrState) (succ : Bool)
    (sequence' : SequenceBuffer) (input' : List Int) (b' : Nat) (e' : ErrState)
    (h : tryReadSample cfg sequence input b e = .ok (succ, sequence', input', b', e'))
    (hinv : ∀ sb ∈ sequence, bufferInvariant sb) :
    (∀ sb ∈ sequence', bufferInvariant sb) ∧ (succ = false → sequence' = sequence) := by
  rcases tryReadSample_ok_cases _ _ _ _ _ _ _ _ _ _ h with
    ⟨hfalse, hunch⟩ | ⟨htrue, id, hcase⟩
  · subst hunch
    exact ⟨hinv, fun _ => rfl⟩
  · refine ⟨?_, ?_⟩
    · intro sb hmem
      rcases hcase with ⟨-, d, read, hbuf, -, hset⟩ | ⟨-, s, addV, addI, hbuf, hlen, -, hset⟩
      · rw [hset] at hmem
        rcases List.mem_or_eq_of_mem_set hmem with hm | hm
        · exact hinv sb hm
        · rw [hm]
          trivial
      · rw [hset] at hmem
        rcases List.mem_or_eq_of_mem_set hmem with hm | hm
        · exact hinv sb hm
        · have hid : id < sequence.length := by
            by_contra hge
            rw [List.getD_eq_default _ _ (Nat.le_of_not_lt hge)] at hbuf
            exact absurd hbuf (by simp [defaultBuffer])
          have hs : bufferInvariant (.sparse s) := by
            rw [← hbuf]
            exact hinv _ (seq_getD_mem sequence id defaultBuffer hid)
          obtain ⟨h1, h2, h3, h4⟩ := hs
          rw [hm]
          refine ⟨?_, ?_, ?_, ?_⟩
          · simp only [List.length_append]
            omega
          · simp only [List.length_append, List.sum_append, List.sum_cons, List.sum_nil]
            omega
          · simp only [List.sum_append, List.sum_cons, List.sum_nil]
            omega
          · simp only [List.length_append, List.length_cons, List.length_nil]
            omega
    · intro hf
      rw [htrue] at hf
      simp at hf

/-- C7 (witness): reading `|y 7:2.5` against the sparse stream `y` of
dimension 10 succeeds and the resulting buffer satisfies the sparse
invariant. -/
theorem c7_sparse_invariant_witness :
    bufferInvariant (.sparse ⟨[5/2], [7], [1], 1, 1⟩) :=
  (c7_sparse_invariant cfgSparse10 seqSparse [124, 121, 32, 55, 58, 50, 46, 53, 124] 9
    errBudget7 true [.sparse ⟨[5/2], [7], [1], 1, 1⟩] [124] 1 errBudget7 (by decide)
    (fun sb hmem => by
      simp only [seqSparse, List.mem_singleton] at hmem
      subst hmem
      exact ⟨rfl, rfl, rfl, rfl⟩)).1
    (.sparse ⟨[5/2], [7], [1], 1, 1⟩) (List.mem_singleton_self _)

/-! ## C3: soft anomalies and the budget -/

/-- C3 (counterexample): a dense sample with fewer than
`sample_dimension` values (`|x 1` against dimension 2, terminated by the
row delimiter) parses successfully with a zero pad and a warning; the
error budget is NOT decremented, refuting the claim that every listed
soft anomaly (in particular a short dense sample) decrements it. -/
theorem c3_short_dense_no_decrement :
    tryReadSample cfgDense2 seqDense [124, 120, 32, 49, 10] 5 errBudget7 =
      .ok (true, [.dense ⟨[1, 0], 1⟩], [10], 1, ⟨7, false, 1, 1, "f"⟩) ∧
    (⟨7, false, 1, 1, "f"⟩ : ErrState).numAllowedErrors = errBudget7.numAllowedErrors := by
  exact ⟨by decide, by decide⟩

/-- C3 (amended): unknown alias, malformed number, over-size sample,
duplicate sample within a sequence and a missing trailing newline each
decrement the error budget and warn when the trace level permits; an
over-full row and a dense sample with fewer than `sample_dimension`
values warn (when the level permits) but do not decrement the budget.
Shown by the generic decrement after any `TryGetInputId` failure, and on
concrete runs (trace level Warning, budget 7): an unknown alias `|z`, a
malformed number `|x -`, an over-size dense sample `|x 1 2 3` against
dimension 2 (budget 6 after each), a duplicate `|x` sample in a one-row
sequence (budget 6), a two-row sequence without a trailing newline
(budget 5: truncated sample and failed row), an over-full row
`|x 1 |x 2` against one declared stream (budget intact, one warning) and
the short dense sample `|x 1` against dimension 2 (budget intact, one
warning, zero-padded). -/
theorem c3_anomaly_budget :
    (∀ (cfg : ParserConfig) (sequence : SequenceBuffer) (input : List Int) (b : Nat)
      (e : ErrState) (input' : List Int) (b' : Nat) (e' : ErrState),
      tryGetInputId cfg input b e = (.fail input' b', e') →
      0 < e'.numAllowedErrors →
      tryReadSampleCore cfg sequence input b e =
        .ok (false, sequence, input', b',
          { e' with numAllowedErrors := e'.numAllowedErrors - 1 })) ∧
    tryReadSample cfgDense2 seqDense [124, 122, 32, 49, 10] 5 errBudget7 =
      .ok (false, seqDense, [32, 49, 10], 3, ⟨6, false, 1, 1, "f"⟩) ∧
    tryReadSample cfgDense2 seqDense [124, 120, 32, 45, 10] 5 errBudget7 =
      .ok (false, seqDense, [10], 1, ⟨6, false, 1, 1, "f"⟩) ∧
    tryReadSample cfgDense2 seqDense [124, 120, 32, 49, 32, 50, 32, 51, 10] 9 errBudget7 =
      .ok (false, seqDense, [10], 1, ⟨6, false, 1, 1, "f"⟩) ∧
    loadSequence cfgDense1 false ⟨7, 1, 10⟩ [124, 120, 32, 49, 32, 124, 120, 32, 50, 10]
        errBudget7 =
      .ok ([.dense ⟨[1, 2], 2⟩], [], 0, ⟨6, false, 1, 2, "f"⟩) ∧
    loadSequence cfgDense1 false ⟨7, 2, 9⟩ [124, 120, 32, 49, 10, 124, 120, 32, 50]
        errBudget7 =
      .ok ([.dense ⟨[1], 1⟩], [], 0, ⟨5, false, 1, 4, "f"⟩) ∧
    tryReadRow cfgDense1 seqDense [124, 120, 32, 49, 32, 124, 120, 32, 50, 10] 10 errBudget7 =
      .ok (true, [.dense ⟨[1, 2], 2⟩], [], 0, ⟨7, false, 1, 1, "f"⟩) ∧
    tryReadSample cfgDense2 seqDense [124, 120, 32, 49, 10] 5 errBudget7 =
      .ok (true, [.dense ⟨[1, 0], 1⟩], [10], 1, ⟨7, false, 1, 1, "f"⟩) := by
  refine ⟨?_, by decide, by decide, by decide, by decide, by decide, by decide, by decide⟩
  intro cfg sequence input b e input' b' e' h hpos
  simp only [tryReadSampleCore, h, incrementNumberOfErrorsOrDie,
    Nat.pos_iff_ne_zero.mp hpos, if_false]

/-- C3 (witness): the unresolvable alias `z` (followed by a value
delimiter) makes the alias lookup fail and the sample reader decrement
the budget from 7 to 6. -/
theorem c3_anomaly_budget_witness :
    tryReadSampleCore cfgDense2 seqDense [122, 32] 2 errBudget7 =
      .ok (false, seqDense, [32], 1, ⟨6, false, 1, 1, "f"⟩) := by
  have h := c3_anomaly_budget.1 cfgDense2 seqDense [122, 32] 2 errBudget7 [32] 1
    ⟨7, false, 1, 1, "f"⟩ (by decide) (by decide)
  simpa using h

/-! ## C4: TryReadRealNumber -/

/-- C4: whenever the real-number machine has consumed a well-formed
number (it stands in an emitting state, which requires at least one digit
in the integral, fractional or exponent part), the first byte that cannot
advance it makes the scanner return true with the accumulated value
while leaving `m_pos` on that byte and the budget untouched (the
terminator is not consumed); in the states where a digit is required —
after a leading sign, after the exponent letter (where a sign is also
admissible) and after an exponent sign — an inadmissible byte makes the
scanner warn and return false.  (In the Period state a digit is not
required: the integral value is emitted.) -/
theorem c4_real_number_terminator :
    (∀ (state : RState) (co num div : ℚ) (neg : Bool) (c : Int) (rest : List Int)
      (n : Nat) (e : ErrState),
      emits state = true → canAdvance state c = false →
      tryReadRealNumberLoop state co num div neg (c :: rest) (n + 1) e =
        (.ok (emittedValue state co num div neg) (c :: rest) (n + 1), e)) ∧
    (∀ (co num div : ℚ) (neg : Bool) (c : Int) (rest : List Int) (n : Nat) (e : ErrState),
      isdigitC c = false →
      (isSignC c = false →
        tryReadRealNumberLoop .initState co num div neg (c :: rest) (n + 1) e =
          (.fail (c :: rest) (n + 1), warn e)) ∧
      tryReadRealNumberLoop .sign co num div neg (c :: rest) (n + 1) e =
        (.fail (c :: rest) (n + 1), warn e) ∧
      (isSignC c = false →
        tryReadRealNumberLoop .theLetterE co num div neg (c :: rest) (n + 1) e =
          (.fail (c :: rest) (n + 1), warn e)) ∧
      tryReadRealNumberLoop .exponentSign co num div neg (c :: rest) (n + 1) e =
        (.fail (c :: rest) (n + 1), warn e)) := by
  constructor
  · intro state co num div neg c rest n e hemits hcan
    cases state <;> simp_all [emits, canAdvance, tryReadRealNumberLoop, emittedValue]
  · intro co num div neg c rest n e hd
    refine ⟨?_, ?_, ?_, ?_⟩ <;> intros <;> simp_all [tryReadRealNumberLoop]

/-- C4 (witness): in the IntegralPart state with accumulated value 5, the
pipe byte terminates the number: the scanner emits 5 and does not consume
the pipe. -/
theorem c4_real_number_terminator_witness :
    tryReadRealNumberLoop .integralPart 0 5 0 false [124] 1 errBudget7 =
      (.ok 5 [124] 1, errBudget7) := by
  have h := c4_real_number_terminator.1 .integralPart 0 5 0 false 124 [] 0 errBudget7
    (by decide) (by decide)
  simpa [emittedValue] using h

/-! ## C5: TryReadUint64 -/

/-- C5 (amended): `TryReadUint64` succeeds exactly when at least one
ASCII digit was consumed, the stopping character is one of the six
recognised delimiters (value delimiter, pipe, column delimiter, index
delimiter, row delimiter, carriage return), and the `size_t` accumulator
run over the digits never decreased (the source's overflow test); the
value returned is the mod-`2^64` accumulator, the delimiter is not
consumed, and exactly one byte of budget per digit was spent.  A detected
overflow (`new < old`) warns and fails, but out-of-range digit strings
whose wrapped accumulator never decreases escape detection. -/
theorem c5_uint64_characterization (input : List Int) (n : Nat) (e : ErrState)
    (w : Nat) (rest' : List Int) (n' : Nat) (e' : ErrState) :
    tryReadUint64 input n e = (.ok w rest' n', e') ↔
    ∃ ds c rest, input = ds ++ c :: rest ∧ ds ≠ [] ∧
      (∀ d ∈ ds, isdigitC d = true) ∧ isDelimiter c = true ∧
      ds.length < n ∧ u64acc 0 ds = some w ∧
      rest' = c :: rest ∧ n' = n - ds.length ∧ e' = e := by
  rw [tryReadUint64, tryReadUint64Loop_ok_iff]
  constructor
  · rintro ⟨ds, c, rest, h1, h2, h3⟩
    refine ⟨ds, c, rest, h1, ?_, h3⟩
    rcases h2 with h2 | h2
    · exact absurd h2 (by simp)
    · exact h2
  · rintro ⟨ds, c, rest, h1, h2, h3⟩
    exact ⟨ds, c, rest, h1, Or.inr h2, h3⟩

/-- C5 (witness): on the input `1:`, the scanner consumes the digit `1`,
stops on the index delimiter without consuming it, and returns 1. -/
theorem c5_uint64_characterization_witness :
    tryReadUint64 [49, 58] 5 errBudget7 = (.ok 1 [58] 4, errBudget7) :=
  (c5_uint64_characterization [49, 58] 5 errBudget7 1 [58] 4 errBudget7).mpr
    ⟨[49], 58, [], rfl, by decide, by decide, by decide, by decide, by decide, rfl, rfl, rfl⟩

/-- C5 (counterexample): the digit string `184467440737095516159`
(equal to `10 * (2^64 - 1) + 9`, hence above the unsigned 64-bit range)
terminated by a column delimiter is accepted by `TryReadUint64` with the
wrapped value `2^64 - 1`: the `new < old` overflow test never fires, so
not every out-of-range digit string is reported as overflow. -/
theorem c5_overflow_undetected :
    tryReadUint64 (overflowDigits ++ [columnDelimiter]) 30 errBudget7 =
      (.ok 18446744073709551615 [columnDelimiter] 9, errBudget7) ∧
    decimalValue overflowDigits = 184467440737095516159 ∧
    u64 - 1 < decimalValue overflowDigits := by
  exact ⟨by decide, by decide, by decide⟩

end TextFormat
